import Mathlib

/-!
Verification of the 2D platformer movement/physics core.

Part 1 embeds `src/tile_merger.rs`: the greedy tile-to-rectangle merger.
The Rust `HashSet<TileCoords>` working set is embedded as a duplicate-free
`List TileCoords`; iteration order of the hash set is unspecified in Rust,
so the list order plays the role of one concrete iteration order and all
theorems are proved for every such order.  Loops that grow a counter while
tiles are found (`find_max_width_from_position`, `find_max_height_for_width`)
are embedded with an explicit fuel of `length + 1`: among distinct tiles a
horizontal or vertical run can contain at most `length` tiles, so the fuel
never runs out before the source loop's exit condition triggers.

Part 2 embeds the kinematic collision code (`src/plugins/collision.rs`),
gravity (`src/plugins/gravity.rs`) and the jump controls
(`src/plugins/player.rs`).  `f32` arithmetic is idealised: the collision
and movement systems, where the code explicitly compares against `0.0` and
`f32::INFINITY`, use an extended-rational type `GFloat` with IEEE-style
`+inf`, `-inf` and `nan` (exact arithmetic, no rounding, no signed zero);
the player/gravity systems, whose claims concern only finite values, use
plain rationals.  The Avian spatial query is an external collaborator and
is embedded as an oracle function returning an optional hit distance.
-/

/-- Integer tile coordinate, from `src/bundles/level.rs` (`i64` fields). -/
structure TileCoords where
  x : ℤ
  y : ℤ
deriving DecidableEq, Repr

/-- Axis-aligned integer rectangle, from `src/tile_merger.rs`. -/
structure Rectangle where
  x : ℤ
  y : ℤ
  width : ℤ
  height : ℤ
deriving DecidableEq, Repr

/-- `Rectangle::area`. -/
def Rectangle.area (r : Rectangle) : ℤ := r.width * r.height

/-- `Rectangle::contains_tile`. -/
def Rectangle.contains_tile (r : Rectangle) (pos : TileCoords) : Prop :=
  r.x ≤ pos.x ∧ pos.x < r.x + r.width ∧ r.y ≤ pos.y ∧ pos.y < r.y + r.height

instance (r : Rectangle) (pos : TileCoords) : Decidable (r.contains_tile pos) := by
  unfold Rectangle.contains_tile
  infer_instance

/-- `Rectangle::get_covered_tiles`: the nested loop
`for x in x..x+width { for y in y..y+height { push (x, y) } }`. -/
def Rectangle.get_covered_tiles (r : Rectangle) : List TileCoords :=
  (List.range r.width.toNat).flatMap fun (i : ℕ) =>
    (List.range r.height.toNat).map fun (j : ℕ) => ⟨r.x + (i : ℤ), r.y + (j : ℤ)⟩

/-- The body of the `while tiles.contains` loop in
`find_max_width_from_position`, with explicit fuel. -/
def findMaxWidthAux (tiles : List TileCoords) (start : TileCoords) :
    ℕ → ℤ → ℤ
  | 0, w => w
  | fuel + 1, w =>
    if (⟨start.x + w, start.y⟩ : TileCoords) ∈ tiles then
      findMaxWidthAux tiles start fuel (w + 1)
    else
      w

/-- `TileMerger::find_max_width_from_position`.  Fuel `length + 1` suffices:
a run of distinct present tiles has at most `length` members, so the
missing-tile exit is always reached. -/
def find_max_width_from_position (tiles : List TileCoords) (start : TileCoords) : ℤ :=
  findMaxWidthAux tiles start (tiles.length + 1) 0

/-- One row-completeness test of `find_max_height_for_width`: the inner
`for x_offset in 0..width` loop that breaks on the first missing tile
computes exactly this conjunction. -/
def rowComplete (tiles : List TileCoords) (start : TileCoords) (width h : ℤ) : Bool :=
  (List.range width.toNat).all fun (i : ℕ) =>
    decide ((⟨start.x + (i : ℤ), start.y + h⟩ : TileCoords) ∈ tiles)

/-- The outer `while row_complete` loop of `find_max_height_for_width`,
with explicit fuel. -/
def findMaxHeightAux (tiles : List TileCoords) (start : TileCoords) (width : ℤ) :
    ℕ → ℤ → ℤ
  | 0, h => h
  | fuel + 1, h =>
    if rowComplete tiles start width h then
      findMaxHeightAux tiles start width fuel (h + 1)
    else
      h

/-- `TileMerger::find_max_height_for_width`.  The source only invokes this
with `width ≥ 1` (the caller ranges over `1..=max_width`); for such widths
fuel `length + 1` suffices because each complete row contributes a distinct
present tile in the start column. -/
def find_max_height_for_width (tiles : List TileCoords) (start : TileCoords)
    (width : ℤ) : ℤ :=
  findMaxHeightAux tiles start width (tiles.length + 1) 0

/-- `TileMerger::find_largest_rect_from_position`: fold over candidate
widths `1..=max_width`, tracking `(best_rect, best_area)`. -/
def find_largest_rect_from_position (tiles : List TileCoords) (start : TileCoords) :
    Rectangle :=
  let maxWidth := find_max_width_from_position tiles start
  let res := (List.range maxWidth.toNat).foldl
    (fun acc (i : ℕ) =>
      let width : ℤ := (i : ℤ) + 1
      let height := find_max_height_for_width tiles start width
      let area := width * height
      if area > acc.2 then (Rectangle.mk start.x start.y width height, area) else acc)
    (Rectangle.mk start.x start.y 1 1, 1)
  res.1

/-- `TileMerger::find_best_rectangle`: fold over the working set in its
iteration order, tracking `(best_rect, best_area)` with `best_area`
initialised to `0`.  The `unwrap_or_else` fallback takes a 1x1 rectangle at
the first tile; the source panics on an empty set (never reached from
`merge_tiles`), embedded here as a junk rectangle. -/
def find_best_rectangle (tiles : List TileCoords) : Rectangle :=
  let res := tiles.foldl
    (fun acc t =>
      let r := find_largest_rect_from_position tiles t
      if r.area > acc.2 then (some r, r.area) else acc)
    ((none : Option Rectangle), 0)
  match res.1 with
  | some r => r
  | none =>
    match tiles with
    | t :: _ => Rectangle.mk t.x t.y 1 1
    | [] => Rectangle.mk 0 0 1 1

/-- The `for tile in best_rect.get_covered_tiles() { remaining.remove(tile) }`
loop of `merge_tiles`. -/
def removeCovered (remaining covered : List TileCoords) : List TileCoords :=
  covered.foldl (fun rem t => rem.erase t) remaining

/-- The `while !remaining_tiles.is_empty()` loop of `merge_tiles`, with
explicit fuel; each pass removes at least one tile, so fuel `length`
suffices (proved below). -/
def mergeTilesFuel : ℕ → List TileCoords → List Rectangle
  | 0, _ => []
  | fuel + 1, tiles =>
    if tiles.isEmpty then []
    else
      let best := find_best_rectangle tiles
      best :: mergeTilesFuel fuel (removeCovered tiles best.get_covered_tiles)

/-- `TileMerger::merge_tiles`. -/
def merge_tiles (tiles : List TileCoords) : List Rectangle :=
  mergeTilesFuel tiles.length tiles


/-! ### Properties of the tile merger -/

/-- Membership in `get_covered_tiles`, indexed form. -/
theorem mem_get_covered_tiles {r : Rectangle} {p : TileCoords} :
    p ∈ r.get_covered_tiles ↔
      ∃ i j : ℕ, i < r.width.toNat ∧ j < r.height.toNat ∧
        p = ⟨r.x + (i : ℤ), r.y + (j : ℤ)⟩ := by
  unfold Rectangle.get_covered_tiles
  rw [List.mem_flatMap]
  constructor
  · rintro ⟨i, hi, hp⟩
    rw [List.mem_map] at hp
    obtain ⟨j, hj, rfl⟩ := hp
    exact ⟨i, j, List.mem_range.mp hi, List.mem_range.mp hj, rfl⟩
  · rintro ⟨i, j, hi, hj, rfl⟩
    exact ⟨i, List.mem_range.mpr hi, List.mem_map.mpr ⟨j, List.mem_range.mpr hj, rfl⟩⟩

/-- The covered-tile list matches `contains_tile`: the enumeration covers
exactly the rectangle's cells. -/
theorem mem_get_covered_tiles_iff_contains {r : Rectangle} {p : TileCoords} :
    p ∈ r.get_covered_tiles ↔ r.contains_tile p := by
  rw [mem_get_covered_tiles]
  unfold Rectangle.contains_tile
  constructor
  · rintro ⟨i, j, hi, hj, rfl⟩
    refine ⟨?_, ?_, ?_, ?_⟩ <;> dsimp only <;> omega
  · rintro ⟨h1, h2, h3, h4⟩
    refine ⟨(p.x - r.x).toNat, (p.y - r.y).toNat, by omega, by omega, ?_⟩
    have hx : r.x + (((p.x - r.x).toNat : ℕ) : ℤ) = p.x := by omega
    have hy : r.y + (((p.y - r.y).toNat : ℕ) : ℤ) = p.y := by omega
    cases p
    dsimp only at hx hy ⊢
    rw [hx, hy]

/-- The covered-tile list has no duplicates. -/
theorem get_covered_tiles_nodup (r : Rectangle) : r.get_covered_tiles.Nodup := by
  unfold Rectangle.get_covered_tiles
  rw [List.nodup_flatMap]
  refine ⟨fun i _ => ?_, ?_⟩
  · refine List.Nodup.map ?_ (List.nodup_range _)
    intro a b hab
    have hy := congrArg TileCoords.y hab
    dsimp only at hy
    omega
  · refine (List.nodup_range _).imp ?_
    intro i j hij
    simp only [Function.onFun]
    rw [List.disjoint_left]
    intro p hp hq
    rw [List.mem_map] at hp hq
    obtain ⟨a, _, rfl⟩ := hp
    obtain ⟨b, _, hb⟩ := hq
    have hx := congrArg TileCoords.x hb
    dsimp only at hx
    omega

/-- The covered-tile list has exactly `width * height` entries. -/
theorem length_get_covered_tiles (r : Rectangle) :
    r.get_covered_tiles.length = r.width.toNat * r.height.toNat := by
  unfold Rectangle.get_covered_tiles
  rw [List.length_flatMap]
  rw [show (List.map (List.length ∘ fun (i : ℕ) => (List.range r.height.toNat).map
        fun (j : ℕ) => (⟨r.x + (i : ℤ), r.y + (j : ℤ)⟩ : TileCoords))
        (List.range r.width.toNat)) =
      List.replicate r.width.toNat r.height.toNat from ?_]
  · rw [List.sum_replicate, smul_eq_mul]
  · have hconst : (List.length ∘ fun (i : ℕ) => (List.range r.height.toNat).map
        fun (j : ℕ) => (⟨r.x + (i : ℤ), r.y + (j : ℤ)⟩ : TileCoords)) =
        fun _ => r.height.toNat := by
      funext i
      simp
    rw [hconst, List.map_const', List.length_range]

/-- The width-search counter never decreases. -/
theorem findMaxWidthAux_ge (tiles : List TileCoords) (start : TileCoords) :
    ∀ (fuel : ℕ) (w : ℤ), w ≤ findMaxWidthAux tiles start fuel w := by
  intro fuel
  induction fuel with
  | zero => intro w; exact le_refl w
  | succ n ih =>
    intro w
    unfold findMaxWidthAux
    split
    · exact le_trans (by omega) (ih (w + 1))
    · exact le_refl w

/-- Every offset below the width-search result lies on a present tile. -/
theorem findMaxWidthAux_run (tiles : List TileCoords) (start : TileCoords) :
    ∀ (fuel : ℕ) (w0 : ℤ),
      (∀ i : ℤ, 0 ≤ i → i < w0 → (⟨start.x + i, start.y⟩ : TileCoords) ∈ tiles) →
      ∀ i : ℤ, 0 ≤ i → i < findMaxWidthAux tiles start fuel w0 →
        (⟨start.x + i, start.y⟩ : TileCoords) ∈ tiles := by
  intro fuel
  induction fuel with
  | zero => intro w0 h; exact h
  | succ n ih =>
    intro w0 h i h0 hi
    rw [findMaxWidthAux] at hi
    by_cases hmem : (⟨start.x + w0, start.y⟩ : TileCoords) ∈ tiles
    · rw [if_pos hmem] at hi
      refine ih (w0 + 1) ?_ i h0 hi
      intro k hk0 hk
      rcases lt_or_eq_of_le (by omega : k + 1 ≤ w0 + 1) with h' | h'
      · exact h k hk0 (by omega)
      · rw [show k = w0 by omega]; exact hmem
    · rw [if_neg hmem] at hi
      exact h i h0 hi

/-- Run property of `find_max_width_from_position`. -/
theorem find_max_width_run (tiles : List TileCoords) (start : TileCoords) :
    ∀ i : ℤ, 0 ≤ i → i < find_max_width_from_position tiles start →
      (⟨start.x + i, start.y⟩ : TileCoords) ∈ tiles :=
  findMaxWidthAux_run tiles start _ 0 (by omega)

/-- The width search returns a nonnegative count. -/
theorem find_max_width_nonneg (tiles : List TileCoords) (start : TileCoords) :
    0 ≤ find_max_width_from_position tiles start :=
  findMaxWidthAux_ge tiles start _ 0

/-- `rowComplete` unfolded. -/
theorem rowComplete_iff {tiles : List TileCoords} {start : TileCoords} {width h : ℤ} :
    rowComplete tiles start width h = true ↔
      ∀ i : ℕ, i < width.toNat →
        (⟨start.x + (i : ℤ), start.y + h⟩ : TileCoords) ∈ tiles := by
  simp [rowComplete]

/-- The height-search counter never decreases. -/
theorem findMaxHeightAux_ge (tiles : List TileCoords) (start : TileCoords) (width : ℤ) :
    ∀ (fuel : ℕ) (h : ℤ), h ≤ findMaxHeightAux tiles start width fuel h := by
  intro fuel
  induction fuel with
  | zero => intro h; exact le_refl h
  | succ n ih =>
    intro h
    unfold findMaxHeightAux
    split
    · exact le_trans (by omega) (ih (h + 1))
    · exact le_refl h

/-- Every row index below the height-search result is a complete row. -/
theorem findMaxHeightAux_rows (tiles : List TileCoords) (start : TileCoords) (width : ℤ) :
    ∀ (fuel : ℕ) (h0 : ℤ),
      (∀ j : ℤ, 0 ≤ j → j < h0 → rowComplete tiles start width j = true) →
      ∀ j : ℤ, 0 ≤ j → j < findMaxHeightAux tiles start width fuel h0 →
        rowComplete tiles start width j = true := by
  intro fuel
  induction fuel with
  | zero => intro h0 h; exact h
  | succ n ih =>
    intro h0 h j hj0 hj
    rw [findMaxHeightAux] at hj
    by_cases hrow : rowComplete tiles start width h0 = true
    · rw [if_pos hrow] at hj
      refine ih (h0 + 1) ?_ j hj0 hj
      intro k hk0 hk
      rcases lt_or_eq_of_le (by omega : k + 1 ≤ h0 + 1) with h' | h'
      · exact h k hk0 (by omega)
      · rw [show k = h0 by omega]; exact hrow
    · rw [if_neg hrow] at hj
      exact h j hj0 hj

/-- Row property of `find_max_height_for_width`. -/
theorem find_max_height_rows (tiles : List TileCoords) (start : TileCoords) (width : ℤ) :
    ∀ j : ℤ, 0 ≤ j → j < find_max_height_for_width tiles start width →
      rowComplete tiles start width j = true :=
  findMaxHeightAux_rows tiles start width _ 0 (by omega)

/-- The height search returns a nonnegative count. -/
theorem find_max_height_nonneg (tiles : List TileCoords) (start : TileCoords) (width : ℤ) :
    0 ≤ find_max_height_for_width tiles start width :=
  findMaxHeightAux_ge tiles start width _ 0

/-- A candidate rectangle anchored at `start` with any width `w` and the
height returned by the height search covers only present tiles. -/
theorem candidate_covered_subset (tiles : List TileCoords) (start : TileCoords) (w : ℤ) :
    ∀ p ∈ (Rectangle.mk start.x start.y w
        (find_max_height_for_width tiles start w)).get_covered_tiles, p ∈ tiles := by
  intro p hp
  rw [mem_get_covered_tiles] at hp
  obtain ⟨i, j, hi, hj, rfl⟩ := hp
  dsimp only at hi hj
  have hh := find_max_height_nonneg tiles start w
  have hrow := find_max_height_rows tiles start w (j : ℤ) (by omega) (by omega)
  rw [rowComplete_iff] at hrow
  exact hrow i hi

/-- Fold invariant preservation. -/
theorem foldl_preserve {α β : Type _} (P : β → Prop) (f : β → α → β) :
    ∀ (l : List α) (b : β), P b → (∀ b' a, P b' → a ∈ l → P (f b' a)) →
      P (l.foldl f b) := by
  intro l
  induction l with
  | nil => intro b hb _; exact hb
  | cons a l ih =>
    intro b hb hstep
    exact ih (f b a) (hstep b a hb (List.mem_cons_self a l))
      fun b' x hb' hx => hstep b' x hb' (List.mem_cons_of_mem a hx)

/-- A rectangle emitted while `tiles` is the working set: anchored on a
present tile, at least 1x1, and covering only present tiles. -/
def GoodRect (tiles : List TileCoords) (r : Rectangle) : Prop :=
  (⟨r.x, r.y⟩ : TileCoords) ∈ tiles ∧ 1 ≤ r.width ∧ 1 ≤ r.height ∧
    ∀ p ∈ r.get_covered_tiles, p ∈ tiles

/-- A good rectangle covers its own anchor. -/
theorem GoodRect.anchor_mem_covered {tiles : List TileCoords} {r : Rectangle}
    (h : GoodRect tiles r) : (⟨r.x, r.y⟩ : TileCoords) ∈ r.get_covered_tiles := by
  have h1 := h.2.1
  have h2 := h.2.2.1
  rw [mem_get_covered_tiles]
  exact ⟨0, 0, by omega, by omega, by simp⟩

/-- A good rectangle has area at least 1. -/
theorem GoodRect.one_le_area {tiles : List TileCoords} {r : Rectangle}
    (h : GoodRect tiles r) : 1 ≤ r.area := by
  have h1 := h.2.1
  have h2 := h.2.2.1
  have := mul_le_mul h1 h2 (by omega) (by omega)
  simpa [Rectangle.area] using this

/-- `find_largest_rect_from_position` returns a good rectangle whenever the
start tile is present. -/
theorem find_largest_good (tiles : List TileCoords) (start : TileCoords)
    (hs : start ∈ tiles) :
    GoodRect tiles (find_largest_rect_from_position tiles start) := by
  have hanchor : (⟨start.x, start.y⟩ : TileCoords) ∈ tiles := by
    cases start; exact hs
  unfold find_largest_rect_from_position
  refine (foldl_preserve
    (fun acc : Rectangle × ℤ => GoodRect tiles acc.1 ∧ 1 ≤ acc.2) _ _ _ ?_ ?_).1
  · dsimp only
    refine ⟨⟨hanchor, le_refl 1, le_refl 1, ?_⟩, le_refl 1⟩
    intro p hp
    rw [mem_get_covered_tiles] at hp
    obtain ⟨i, j, hi, hj, rfl⟩ := hp
    dsimp only at hi hj ⊢
    have hi0 : i = 0 := by omega
    have hj0 : j = 0 := by omega
    subst hi0; subst hj0
    simpa using hanchor
  · intro acc i hacc _
    have ha2 := hacc.2
    dsimp only
    split
    · rename_i hgt
      have hh1 : 1 ≤ find_max_height_for_width tiles start ((i : ℤ) + 1) := by
        by_contra hcon
        push_neg at hcon
        have hle : ((i : ℤ) + 1) * find_max_height_for_width tiles start ((i : ℤ) + 1) ≤ 0 :=
          mul_nonpos_iff.mpr (Or.inl ⟨by omega, by omega⟩)
        omega
      refine ⟨⟨hanchor, ?_, hh1, ?_⟩, ?_⟩
      · show (1 : ℤ) ≤ (i : ℤ) + 1
        omega
      · exact candidate_covered_subset tiles start _
      · show (1 : ℤ) ≤ ((i : ℤ) + 1) * find_max_height_for_width tiles start ((i : ℤ) + 1)
        omega
    · exact hacc

/-- `find_best_rectangle` returns a good rectangle on a nonempty working
set. -/
theorem find_best_good (tiles : List TileCoords) (hne : tiles ≠ []) :
    GoodRect tiles (find_best_rectangle tiles) := by
  match tiles, hne with
  | t :: rest, _ =>
    unfold find_best_rectangle
    have hfold : ∃ r, ((t :: rest).foldl
        (fun acc u =>
          let ru := find_largest_rect_from_position (t :: rest) u
          if ru.area > acc.2 then (some ru, ru.area) else acc)
        ((none : Option Rectangle), 0)).1 = some r ∧ GoodRect (t :: rest) r := by
      rw [List.foldl_cons]
      refine foldl_preserve
        (fun acc : Option Rectangle × ℤ => ∃ r, acc.1 = some r ∧ GoodRect (t :: rest) r)
        _ rest _ ?_ ?_
      · have hg := find_largest_good (t :: rest) t (List.mem_cons_self t rest)
        dsimp only
        rw [if_pos (lt_of_lt_of_le zero_lt_one hg.one_le_area)]
        exact ⟨_, rfl, hg⟩
      · intro acc u hacc hu
        dsimp only
        split
        · exact ⟨_, rfl, find_largest_good (t :: rest) u (List.mem_cons_of_mem t hu)⟩
        · exact hacc
    obtain ⟨r, hr, hgood⟩ := hfold
    simpa only [hr] using hgood

/-- Removing covered tiles preserves duplicate-freeness. -/
theorem removeCovered_nodup :
    ∀ (cov rem : List TileCoords), rem.Nodup → (removeCovered rem cov).Nodup := by
  intro cov
  induction cov with
  | nil => intro rem h; exact h
  | cons c cov ih =>
    intro rem h
    exact ih (rem.erase c) (List.Nodup.erase c h)

/-- Membership after removal: exactly the uncovered remaining tiles. -/
theorem mem_removeCovered :
    ∀ (cov rem : List TileCoords), rem.Nodup →
      ∀ p, p ∈ removeCovered rem cov ↔ p ∈ rem ∧ p ∉ cov := by
  intro cov
  induction cov with
  | nil => intro rem _ p; simp [removeCovered]
  | cons c cov ih =>
    intro rem h p
    have hstep : removeCovered rem (c :: cov) = removeCovered (rem.erase c) cov := rfl
    rw [hstep, ih (rem.erase c) (List.Nodup.erase c h) p, List.Nodup.mem_erase_iff h,
      List.mem_cons]
    constructor
    · rintro ⟨⟨hne, hmem⟩, hnc⟩
      exact ⟨hmem, fun hor => hor.elim hne hnc⟩
    · rintro ⟨hmem, hnor⟩
      exact ⟨⟨fun he => hnor (Or.inl he), hmem⟩, fun hc => hnor (Or.inr hc)⟩

/-- Counting after removal: when the covered tiles are distinct and all
present, removal shrinks the working set by exactly their number. -/
theorem length_removeCovered :
    ∀ (cov rem : List TileCoords), rem.Nodup → cov.Nodup → (∀ p ∈ cov, p ∈ rem) →
      (removeCovered rem cov).length + cov.length = rem.length := by
  intro cov
  induction cov with
  | nil => intro rem _ _ _; simp [removeCovered]
  | cons c cov ih =>
    intro rem hrem hcov hsub
    have hc : c ∈ rem := hsub c (List.mem_cons_self c cov)
    have hcons := List.nodup_cons.mp hcov
    have hstep : removeCovered rem (c :: cov) = removeCovered (rem.erase c) cov := rfl
    have hsub' : ∀ p ∈ cov, p ∈ rem.erase c := by
      intro p hp
      rw [List.Nodup.mem_erase_iff hrem]
      exact ⟨fun he => hcons.1 (he ▸ hp), hsub p (List.mem_cons_of_mem c hp)⟩
    have hih := ih (rem.erase c) (List.Nodup.erase c hrem) hcons.2 hsub'
    have hlen : (rem.erase c).length = rem.length - 1 := List.length_erase_of_mem hc
    have hpos : 0 < rem.length := List.length_pos.mpr (List.ne_nil_of_mem hc)
    rw [hstep]
    simp only [List.length_cons]
    omega

/-- One merge pass on a nonempty working set strictly shrinks it. -/
theorem removeCovered_best_lt (tiles : List TileCoords) (hnd : tiles.Nodup)
    (hne : tiles ≠ []) :
    (removeCovered tiles (find_best_rectangle tiles).get_covered_tiles).length <
      tiles.length := by
  have hgood := find_best_good tiles hne
  have hanchor_cov := hgood.anchor_mem_covered
  have hanchor_mem := hgood.1
  have hlen := length_removeCovered (find_best_rectangle tiles).get_covered_tiles tiles
    hnd (get_covered_tiles_nodup _) hgood.2.2.2
  have hcovpos : 0 < (find_best_rectangle tiles).get_covered_tiles.length :=
    List.length_pos.mpr (List.ne_nil_of_mem hanchor_cov)
  omega

/-- Area of a good rectangle counts its covered tiles. -/
theorem GoodRect.area_eq_card {tiles : List TileCoords} {r : Rectangle}
    (h : GoodRect tiles r) : r.area = (r.get_covered_tiles.length : ℤ) := by
  have h1 := h.2.1
  have h2 := h.2.2.1
  rw [length_get_covered_tiles]
  unfold Rectangle.area
  rw [Nat.cast_mul, Int.toNat_of_nonneg (by omega), Int.toNat_of_nonneg (by omega)]

/-- Main invariant of the merge loop: with enough fuel, the emitted
rectangles cover exactly the working set, pairwise disjointly, with areas
summing to its size, in at most one rectangle per tile. -/
theorem mergeTilesFuel_spec :
    ∀ (fuel : ℕ) (tiles : List TileCoords), tiles.Nodup → tiles.length ≤ fuel →
      (∀ p, p ∈ tiles ↔ ∃ r ∈ mergeTilesFuel fuel tiles, p ∈ r.get_covered_tiles) ∧
      (mergeTilesFuel fuel tiles).Pairwise
        (fun r s => ∀ p ∈ r.get_covered_tiles, p ∉ s.get_covered_tiles) ∧
      ((mergeTilesFuel fuel tiles).map Rectangle.area).sum = (tiles.length : ℤ) ∧
      (mergeTilesFuel fuel tiles).length ≤ tiles.length := by
  intro fuel
  induction fuel with
  | zero =>
    intro tiles hnd hlen
    have hnil : tiles = [] := List.eq_nil_of_length_eq_zero (by omega)
    subst hnil
    refine ⟨fun p => ?_, ?_, ?_, ?_⟩ <;> simp [mergeTilesFuel]
  | succ n ih =>
    intro tiles hnd hlen
    by_cases hne : tiles = []
    · subst hne
      refine ⟨fun p => ?_, ?_, ?_, ?_⟩ <;> simp [mergeTilesFuel]
    · have hstep : mergeTilesFuel (n + 1) tiles =
          find_best_rectangle tiles ::
            mergeTilesFuel n
              (removeCovered tiles (find_best_rectangle tiles).get_covered_tiles) := by
        simp only [mergeTilesFuel]
        rw [if_neg (by simpa [List.isEmpty_iff] using hne)]
      have hgood := find_best_good tiles hne
      set best := find_best_rectangle tiles with hbestdef
      set rest := removeCovered tiles best.get_covered_tiles with hrestdef
      have hcovsub := hgood.2.2.2
      have hcovnd := get_covered_tiles_nodup best
      have hrestnd : rest.Nodup := removeCovered_nodup best.get_covered_tiles tiles hnd
      have hmem : ∀ p, p ∈ rest ↔ p ∈ tiles ∧ p ∉ best.get_covered_tiles :=
        mem_removeCovered best.get_covered_tiles tiles hnd
      have hlenrest := length_removeCovered best.get_covered_tiles tiles hnd hcovnd hcovsub
      rw [← hrestdef] at hlenrest
      have hanchor := hgood.anchor_mem_covered
      have hcovpos : 0 < best.get_covered_tiles.length :=
        List.length_pos.mpr (List.ne_nil_of_mem hanchor)
      have hrestle : rest.length ≤ n := by omega
      obtain ⟨ihmem, ihpair, ihsum, ihlen⟩ := ih rest hrestnd hrestle
      rw [hstep]
      refine ⟨?_, ?_, ?_, ?_⟩
      · intro p
        constructor
        · intro hp
          by_cases hc : p ∈ best.get_covered_tiles
          · exact ⟨best, List.mem_cons_self best _, hc⟩
          · obtain ⟨r, hr, hpr⟩ := (ihmem p).mp ((hmem p).mpr ⟨hp, hc⟩)
            exact ⟨r, List.mem_cons_of_mem _ hr, hpr⟩
        · rintro ⟨r, hr, hpr⟩
          rcases List.mem_cons.mp hr with hcase | hr'
          · exact hcovsub p (hcase ▸ hpr)
          · exact ((hmem p).mp ((ihmem p).mpr ⟨r, hr', hpr⟩)).1
      · rw [List.pairwise_cons]
        refine ⟨?_, ihpair⟩
        intro r' hr' p hp hp'
        have hpr : p ∈ rest := (ihmem p).mpr ⟨r', hr', hp'⟩
        exact ((hmem p).mp hpr).2 hp
      · simp only [List.map_cons, List.sum_cons]
        rw [ihsum, hgood.area_eq_card]
        omega
      · simp only [List.length_cons]
        omega

/-- C1: for every finite set `T` of tile coordinates (presented as a
duplicate-free list in the hash set's iteration order), the rectangles
returned by `merge_tiles T` cover exactly `T`: every tile of `T` is covered
by some output rectangle and the covered-tile lists are pairwise disjoint
(so each tile is covered by exactly one rectangle), no output rectangle
covers a tile outside `T`, and the areas sum to the number of tiles. -/
theorem merge_tiles_coverage (T : List TileCoords) (hnd : T.Nodup) :
    (∀ p, p ∈ T ↔ ∃ r ∈ merge_tiles T, p ∈ r.get_covered_tiles) ∧
    (merge_tiles T).Pairwise
      (fun r s => ∀ p ∈ r.get_covered_tiles, p ∉ s.get_covered_tiles) ∧
    ((merge_tiles T).map Rectangle.area).sum = (T.length : ℤ) := by
  obtain ⟨h1, h2, h3, _⟩ := mergeTilesFuel_spec T.length T hnd (le_refl _)
  exact ⟨h1, h2, h3⟩

/-- Witness for C1 at the L-shaped set `{(0,0), (1,0), (0,1)}`. -/
theorem merge_tiles_coverage_witness :
    ([⟨0, 0⟩, ⟨1, 0⟩, ⟨0, 1⟩] : List TileCoords).Nodup ∧
    ((∀ p, p ∈ ([⟨0, 0⟩, ⟨1, 0⟩, ⟨0, 1⟩] : List TileCoords) ↔
        ∃ r ∈ merge_tiles [⟨0, 0⟩, ⟨1, 0⟩, ⟨0, 1⟩], p ∈ r.get_covered_tiles) ∧
      (merge_tiles [⟨0, 0⟩, ⟨1, 0⟩, ⟨0, 1⟩]).Pairwise
        (fun r s => ∀ p ∈ r.get_covered_tiles, p ∉ s.get_covered_tiles) ∧
      ((merge_tiles [⟨0, 0⟩, ⟨1, 0⟩, ⟨0, 1⟩]).map Rectangle.area).sum =
        (([⟨0, 0⟩, ⟨1, 0⟩, ⟨0, 1⟩] : List TileCoords).length : ℤ)) :=
  ⟨by decide, merge_tiles_coverage _ (by decide)⟩

/-- C6: on a nonempty duplicate-free working set each iteration of the
merge loop removes at least one tile (the chosen rectangle is at least
1x1, so the working set strictly shrinks), and consequently `merge_tiles`
terminates after at most `|tiles|` iterations (one emitted rectangle per
iteration). -/
theorem merge_tiles_termination (T : List TileCoords) (hnd : T.Nodup) (hne : T ≠ []) :
    (removeCovered T (find_best_rectangle T).get_covered_tiles).length < T.length ∧
    1 ≤ (find_best_rectangle T).width ∧ 1 ≤ (find_best_rectangle T).height ∧
    (merge_tiles T).length ≤ T.length := by
  have hgood := find_best_good T hne
  exact ⟨removeCovered_best_lt T hnd hne, hgood.2.1, hgood.2.2.1,
    (mergeTilesFuel_spec T.length T hnd (le_refl _)).2.2.2⟩

/-- Witness for C6 at the two-tile set `{(5,5), (6,5)}`. -/
theorem merge_tiles_termination_witness :
    ([⟨5, 5⟩, ⟨6, 5⟩] : List TileCoords).Nodup ∧ ([⟨5, 5⟩, ⟨6, 5⟩] : List TileCoords) ≠ [] ∧
    ((removeCovered [⟨5, 5⟩, ⟨6, 5⟩]
        (find_best_rectangle [⟨5, 5⟩, ⟨6, 5⟩]).get_covered_tiles).length <
      ([⟨5, 5⟩, ⟨6, 5⟩] : List TileCoords).length ∧
    1 ≤ (find_best_rectangle [⟨5, 5⟩, ⟨6, 5⟩]).width ∧
    1 ≤ (find_best_rectangle [⟨5, 5⟩, ⟨6, 5⟩]).height ∧
    (merge_tiles [⟨5, 5⟩, ⟨6, 5⟩]).length ≤ ([⟨5, 5⟩, ⟨6, 5⟩] : List TileCoords).length) :=
  ⟨by decide, by decide, merge_tiles_termination _ (by decide) (by decide)⟩

/-! ### Part 2: idealised `f32` and the collision systems -/

/-- Idealised `f32`: exact rationals extended with the IEEE special values
`+inf`, `-inf` and `nan` (no rounding, no signed zero, no subnormals). -/
inductive GFloat where
  | fin (q : ℚ)
  | inf
  | neginf
  | nan
deriving DecidableEq, Repr

namespace GFloat

/-- IEEE negation. -/
def neg : GFloat → GFloat
  | fin q => fin (-q)
  | inf => neginf
  | neginf => inf
  | nan => nan

/-- IEEE addition (exact on finite values). -/
def add : GFloat → GFloat → GFloat
  | nan, _ => nan
  | _, nan => nan
  | inf, neginf => nan
  | neginf, inf => nan
  | inf, _ => inf
  | _, inf => inf
  | neginf, _ => neginf
  | _, neginf => neginf
  | fin a, fin b => fin (a + b)

/-- IEEE subtraction. -/
def sub (a b : GFloat) : GFloat := add a (neg b)

/-- IEEE multiplication (exact on finite values); `0 * inf = nan`. -/
def mul : GFloat → GFloat → GFloat
  | nan, _ => nan
  | _, nan => nan
  | fin a, fin b => fin (a * b)
  | inf, inf => inf
  | inf, neginf => neginf
  | neginf, inf => neginf
  | neginf, neginf => inf
  | inf, fin b => if 0 < b then inf else if b < 0 then neginf else nan
  | fin a, inf => if 0 < a then inf else if a < 0 then neginf else nan
  | neginf, fin b => if 0 < b then neginf else if b < 0 then inf else nan
  | fin a, neginf => if 0 < a then neginf else if a < 0 then inf else nan

/-- IEEE reciprocal; `1/0 = +inf` (rationals carry no signed zero). -/
def recip : GFloat → GFloat
  | nan => nan
  | inf => fin 0
  | neginf => fin 0
  | fin q => if q = 0 then inf else fin q⁻¹

/-- IEEE `<`: comparisons involving `nan` are false. -/
def lt : GFloat → GFloat → Bool
  | nan, _ => false
  | _, nan => false
  | fin a, fin b => decide (a < b)
  | neginf, neginf => false
  | neginf, _ => true
  | _, neginf => false
  | inf, _ => false
  | fin _, inf => true

/-- IEEE `==`: comparisons involving `nan` are false. -/
def beq : GFloat → GFloat → Bool
  | nan, _ => false
  | _, nan => false
  | fin a, fin b => decide (a = b)
  | inf, inf => true
  | neginf, neginf => true
  | _, _ => false

/-- Rust `f32::clamp(min, max)`: `if self < min { min } else if self > max
{ max } else { self }` (callers maintain `min ≤ max`). -/
def clamp (x lo hi : GFloat) : GFloat :=
  if lt x lo then lo else if lt hi x then hi else x

/-- `f32::is_finite`. -/
def isFinite : GFloat → Bool
  | fin _ => true
  | _ => false

end GFloat

/-- A 2D vector of idealised floats (`glam::Vec2`). -/
structure GVec2 where
  x : GFloat
  y : GFloat
deriving DecidableEq, Repr

/-- The Avian spatial query, an external collaborator: given origin,
direction and maximum distance it may report the nearest hit's distance
(`ShapeHitData::distance`); the surface normal is unused by this code. -/
def CastOracle : Type := GVec2 → GVec2 → GFloat → Option GFloat

/-- Success condition of `Dir2::new` (bevy_math `try_normalize`): the
direction is accepted when its components are finite and not all zero
(idealised: no overflow, so a finite nonzero vector has a finite positive
length). -/
def dir2New (d : GVec2) : Bool :=
  d.x.isFinite && d.y.isFinite &&
    !(GFloat.beq d.x (GFloat.fin 0) && GFloat.beq d.y (GFloat.fin 0))

/-- `shape_cast` from `src/plugins/collision.rs`: the query runs only when
`Dir2::new(direction)` succeeds, otherwise the call returns `None`. -/
def shape_cast (cast : CastOracle) (origin direction : GVec2) (distance : GFloat) :
    Option GFloat :=
  if dir2New direction then cast origin direction distance else none

/-- Per-body step of `check_grounded_state`: casts downward by
`ground_check_distance` from the body's translation plus the child
collider's offset.  On a hit the grounded flag is set, `velocity.y` is
clamped into `[0, inf]` and the stopwatch (when present) is reset; on a
miss the flag is cleared and the stopwatch ticks by the frame delta.
Returns (grounded, velocity.y, stopwatch elapsed seconds). -/
def check_grounded_state (cast : CastOracle) (dt : ℚ) (pos coll : GVec2)
    (groundDist : GFloat) (vy : GFloat) (stopwatch : Option ℚ) :
    Bool × GFloat × Option ℚ :=
  match shape_cast cast ⟨GFloat.add pos.x coll.x, GFloat.add pos.y coll.y⟩
      ⟨GFloat.fin 0, GFloat.fin (-1)⟩ groundDist with
  | some _ => (true, GFloat.clamp vy (GFloat.fin 0) GFloat.inf, stopwatch.map fun _ => 0)
  | none => (false, vy, stopwatch.map fun s => s + dt)

/-- Per-body step of `check_wall_left_state`: casts along `NEG_X` by
`wall_check_distance` from a probe offset one unit above the collider
anchor; on a hit the flag is set and `velocity.x` is clamped into
`[0, inf]`. -/
def check_wall_left_state (cast : CastOracle) (pos coll : GVec2)
    (wallDist : GFloat) (vx : GFloat) : Bool × GFloat :=
  match shape_cast cast
      ⟨GFloat.add pos.x coll.x, GFloat.add (GFloat.add pos.y coll.y) (GFloat.fin 1)⟩
      ⟨GFloat.fin (-1), GFloat.fin 0⟩ wallDist with
  | some _ => (true, GFloat.clamp vx (GFloat.fin 0) GFloat.inf)
  | none => (false, vx)

/-- Per-body step of `check_wall_right_state`: casts along `X` by
`wall_check_distance` from the same raised probe; on a hit the flag is set
and `velocity.x` is clamped into `[0, inf]` — the same clamp as the left
check (`velocity.0.x.clamp(0.0, INFINITY)` on both paths in the source). -/
def check_wall_right_state (cast : CastOracle) (pos coll : GVec2)
    (wallDist : GFloat) (vx : GFloat) : Bool × GFloat :=
  match shape_cast cast
      ⟨GFloat.add pos.x coll.x, GFloat.add (GFloat.add pos.y coll.y) (GFloat.fin 1)⟩
      ⟨GFloat.fin 1, GFloat.fin 0⟩ wallDist with
  | some _ => (true, GFloat.clamp vx (GFloat.fin 0) GFloat.inf)
  | none => (false, vx)

/-- The velocity-mutation prefix of `apply_velocity` (lines 316-336):
dead-zone snap of `velocity.x`, wall-block overrides, ceiling-block
override.  Restated separately so theorems can name the mutated velocity;
`apply_velocity` below inlines the same steps. -/
def apply_velocity_clamp (vel : GVec2) (wallL wallR ceil : Option Bool) : GVec2 :=
  let vx1 := if GFloat.lt (GFloat.fin (-1)) vel.x && GFloat.lt vel.x (GFloat.fin 1) then
      GFloat.fin 0 else vel.x
  let vx2 := match wallL with
    | some b => if b && GFloat.lt vx1 (GFloat.fin 0) then GFloat.fin 0 else vx1
    | none => vx1
  let vx3 := match wallR with
    | some b => if b && GFloat.lt (GFloat.fin 0) vx2 then GFloat.fin 0 else vx2
    | none => vx2
  let vy1 := match ceil with
    | some b => if b && GFloat.lt (GFloat.fin 0) vel.y then GFloat.fin (-1) else vel.y
    | none => vel.y
  ⟨vx3, vy1⟩

/-- Per-body step of `apply_velocity` (lines 316-359).  `len` stands for
`velocity.0.length()` evaluated on the mutated velocity (glam computes an
IEEE square root, which has no exact rational form; theorems constrain
`len` through `isLength`).  Mirrors the source: velocity mutations first,
then the `length == 0.0 || length == INFINITY` guard (`continue` keeps the
mutated velocity and leaves the transform), then a cast along
`velocity.0.normalize()` for `length * dt`, moving by `hit.distance - 0.1`
on a hit and by the full distance otherwise.  Returns (velocity,
translation). -/
def apply_velocity (cast : CastOracle) (len dt : GFloat) (pos coll vel : GVec2)
    (wallL wallR ceil : Option Bool) : GVec2 × GVec2 :=
  let vx1 := if GFloat.lt (GFloat.fin (-1)) vel.x && GFloat.lt vel.x (GFloat.fin 1) then
      GFloat.fin 0 else vel.x
  let vx2 := match wallL with
    | some b => if b && GFloat.lt vx1 (GFloat.fin 0) then GFloat.fin 0 else vx1
    | none => vx1
  let vx3 := match wallR with
    | some b => if b && GFloat.lt (GFloat.fin 0) vx2 then GFloat.fin 0 else vx2
    | none => vx2
  let vy1 := match ceil with
    | some b => if b && GFloat.lt (GFloat.fin 0) vel.y then GFloat.fin (-1) else vel.y
    | none => vel.y
  let v : GVec2 := ⟨vx3, vy1⟩
  if GFloat.beq len (GFloat.fin 0) || GFloat.beq len GFloat.inf then (v, pos)
  else
    let target := GFloat.mul len dt
    let unit : GVec2 := ⟨GFloat.mul v.x (GFloat.recip len), GFloat.mul v.y (GFloat.recip len)⟩
    let hit := shape_cast cast ⟨GFloat.add pos.x coll.x, GFloat.add pos.y coll.y⟩ unit target
    let actual := match hit with
      | some d => GFloat.sub d (GFloat.fin (1 / 10))
      | none => target
    (v, ⟨GFloat.add pos.x (GFloat.mul unit.x actual),
         GFloat.add pos.y (GFloat.mul unit.y actual)⟩)

/-- Modelled from glam `Vec2::length` under the idealisation: the length of
a vector with a `nan` component is `nan`; with an infinite component (and
no `nan`) it is `+inf`; for finite components it is the exact nonnegative
square root of `x*x + y*y` when one exists in `ℚ`.  Used as a hypothesis
relating `apply_velocity`'s `len` argument to the velocity. -/
def isLength (v : GVec2) (len : GFloat) : Bool :=
  match v.x, v.y with
  | GFloat.nan, _ => decide (len = GFloat.nan)
  | _, GFloat.nan => decide (len = GFloat.nan)
  | GFloat.fin a, GFloat.fin b =>
    match len with
    | GFloat.fin q => decide (0 ≤ q ∧ q * q = a * a + b * b)
    | _ => false
  | _, _ => decide (len = GFloat.inf)

/-! ### Gravity and player controls (finite behaviour, exact rationals) -/

/-- `EntityGravity` from `src/plugins/gravity.rs`. -/
structure EntityGravity where
  gravity : ℚ
  max_fall_speed : ℚ
  enabled : Bool
deriving DecidableEq, Repr

/-- Per-body step of `apply_gravity`: when gravity is enabled and
`velocity.y > -max_fall_speed`, subtract `gravity * dt` from `velocity.y`
unless a grounded flag is present and set. -/
def apply_gravity (dt : ℚ) (g : EntityGravity) (vy : ℚ) (grounded : Option Bool) : ℚ :=
  if g.enabled && decide (-g.max_fall_speed < vy) then
    match grounded with
    | some b => if !b then vy - g.gravity * dt else vy
    | none => vy - g.gravity * dt
  else vy

/-- Bevy `Timer` in `Once` mode, reduced to the fields this code reads:
elapsed seconds (capped at the duration), the duration, and the stored
finished flag (recomputed on `tick`, cleared on `reset`). -/
structure TimerM where
  elapsed : ℚ
  duration : ℚ
  finished : Bool
deriving DecidableEq, Repr

/-- `Timer::tick` for a `Once` timer: elapsed accumulates and saturates at
the duration; the finished flag becomes `elapsed + dt ≥ duration`. -/
def TimerM.tick (t : TimerM) (dt : ℚ) : TimerM :=
  { elapsed := min (t.elapsed + dt) t.duration
    duration := t.duration
    finished := decide (t.duration ≤ t.elapsed + dt) }

/-- `Timer::reset`. -/
def TimerM.reset (t : TimerM) : TimerM :=
  { elapsed := 0, duration := t.duration, finished := false }

/-- Per-body step of `toggle_gravity` from `src/plugins/player.rs`: tick
the post-jump gravity-immunity timer, then enable gravity iff the timer
has finished or the jump input is not pressed.  Returns (timer, enabled). -/
def toggle_gravity (pressedJump : Bool) (dt : ℚ) (immunity : TimerM) : TimerM × Bool :=
  let t := immunity.tick dt
  (t, t.finished || !pressedJump)

/-- Rust `f32::clamp(min, max)` on finite values (callers keep
`min ≤ max`). -/
def rclamp (x lo hi : ℚ) : ℚ := min (max x lo) hi

/-- Per-body step of `apply_controls` from `src/plugins/player.rs`,
restricted to its velocity/timer effects (sprite flipping, animation
selection and the shoot event are rendering/UI collaborators outside this
core).  Mirrors the source order: tick the jump cooldown, build
`direction.x` from held input or ground deceleration, add the jump impulse
to `direction.y` when the jump is pressed and permitted (grounded, or
within coyote time with a finished cooldown), resetting the
gravity-immunity and cooldown timers on success, then add `direction` to
the velocity.  Returns (velocity, immunity timer, cooldown timer,
just-jumped). -/
def apply_controls (pressedLeft pressedRight pressedJump : Bool) (dt : ℚ)
    (vel : ℚ × ℚ) (grounded : Bool) (immunity : TimerM) (stopwatchElapsed coyote : ℚ)
    (jumpForce walkSpeed walkAccel groundDecel : ℚ) (cooldown : TimerM) :
    (ℚ × ℚ) × TimerM × TimerM × Bool :=
  let cooldown1 := cooldown.tick dt
  let dirx : ℚ :=
    if pressedLeft then
      if -walkSpeed < vel.1 then -walkAccel * dt else 0
    else if pressedRight then
      if vel.1 < walkSpeed then walkAccel * dt else 0
    else if vel.1 < 0 then
      rclamp (groundDecel * dt) vel.1 groundDecel
    else if 0 < vel.1 then
      rclamp (-(groundDecel * dt)) (-groundDecel) vel.1
    else 0
  let canJump := grounded || (decide (stopwatchElapsed < coyote) && cooldown1.finished)
  let doJump := pressedJump && canJump
  let diry : ℚ := if doJump then jumpForce else 0
  let immunity2 := if doJump then immunity.reset else immunity
  let cooldown2 := if doJump then cooldown1.reset else cooldown1
  ((vel.1 + dirx, vel.2 + diry), immunity2, cooldown2, doJump)

/-! ### Collision state machine claims -/

/-- Clamping a finite float into `[0, inf]` is truncation at zero. -/
theorem GFloat.clamp_fin_zero_inf (q : ℚ) :
    GFloat.clamp (GFloat.fin q) (GFloat.fin 0) GFloat.inf = GFloat.fin (max q 0) := by
  simp only [GFloat.clamp, GFloat.lt, decide_eq_true_eq, Bool.false_eq_true, if_false]
  split_ifs with h
  · rw [max_eq_right h.le]
  · rw [max_eq_left (not_lt.mp h)]

/-- C4: on every tick, a downward ground-cast hit sets the grounded flag,
clamps `velocity.y` into `[0, inf]` (for finite `velocity.y = q` the result
is `max q 0 ≥ 0`) and resets the time-since-grounded stopwatch to `0`;
a miss clears the flag, leaves `velocity.y` unchanged and advances the
stopwatch by the frame delta. -/
theorem check_grounded_spec (cast : CastOracle) (dt : ℚ) (pos coll : GVec2)
    (groundDist : GFloat) (vy : GFloat) (sw : ℚ) :
    ((shape_cast cast ⟨GFloat.add pos.x coll.x, GFloat.add pos.y coll.y⟩
        ⟨GFloat.fin 0, GFloat.fin (-1)⟩ groundDist).isSome = true →
      check_grounded_state cast dt pos coll groundDist vy (some sw) =
        (true, GFloat.clamp vy (GFloat.fin 0) GFloat.inf, some 0) ∧
      ∀ q, vy = GFloat.fin q →
        (check_grounded_state cast dt pos coll groundDist vy (some sw)).2.1 =
          GFloat.fin (max q 0)) ∧
    ((shape_cast cast ⟨GFloat.add pos.x coll.x, GFloat.add pos.y coll.y⟩
        ⟨GFloat.fin 0, GFloat.fin (-1)⟩ groundDist).isSome = false →
      check_grounded_state cast dt pos coll groundDist vy (some sw) =
        (false, vy, some (sw + dt))) := by
  constructor
  · intro hhit
    obtain ⟨d, hd⟩ := Option.isSome_iff_exists.mp hhit
    constructor
    · unfold check_grounded_state
      rw [hd]
      rfl
    · intro q hq
      unfold check_grounded_state
      rw [hd, hq]
      simp only
      exact GFloat.clamp_fin_zero_inf q
  · intro hmiss
    have hd : shape_cast cast ⟨GFloat.add pos.x coll.x, GFloat.add pos.y coll.y⟩
        ⟨GFloat.fin 0, GFloat.fin (-1)⟩ groundDist = none :=
      Option.not_isSome_iff_eq_none.mp (by simp [hmiss])
    unfold check_grounded_state
    rw [hd]
    rfl

/-- Witness for C4: a concrete always-hit oracle with `velocity.y = -3`. -/
theorem check_grounded_spec_witness :
    ((shape_cast (fun _ _ _ => some (GFloat.fin 1)) ⟨GFloat.fin 0, GFloat.fin 0⟩
        ⟨GFloat.fin 0, GFloat.fin (-1)⟩ (GFloat.fin 1)).isSome = true) ∧
    check_grounded_state (fun _ _ _ => some (GFloat.fin 1)) (1 / 60)
        ⟨GFloat.fin 0, GFloat.fin 0⟩ ⟨GFloat.fin 0, GFloat.fin 0⟩ (GFloat.fin 1)
        (GFloat.fin (-3)) (some 2) =
      (true, GFloat.clamp (GFloat.fin (-3)) (GFloat.fin 0) GFloat.inf, some 0) ∧
    (check_grounded_state (fun _ _ _ => some (GFloat.fin 1)) (1 / 60)
        ⟨GFloat.fin 0, GFloat.fin 0⟩ ⟨GFloat.fin 0, GFloat.fin 0⟩ (GFloat.fin 1)
        (GFloat.fin (-3)) (some 2)).2.1 = GFloat.fin (max (-3) 0) :=
  ⟨by decide,
    ((check_grounded_spec (fun _ _ _ => some (GFloat.fin 1)) (1 / 60)
        ⟨GFloat.fin 0, GFloat.fin 0⟩ ⟨GFloat.fin 0, GFloat.fin 0⟩ (GFloat.fin 1)
        (GFloat.fin (-3)) 2).1 (by decide)).1,
    ((check_grounded_spec (fun _ _ _ => some (GFloat.fin 1)) (1 / 60)
        ⟨GFloat.fin 0, GFloat.fin 0⟩ ⟨GFloat.fin 0, GFloat.fin 0⟩ (GFloat.fin 1)
        (GFloat.fin (-3)) 2).1 (by decide)).2 (-3) rfl⟩

/-- C2 exhibit: on a right-wall hit the source clamps `velocity.x` with
`clamp(0.0, INFINITY)`, exactly as the left check does.  A body moving
rightward into the wall (`velocity.x = 5`) keeps `velocity.x = 5` (no
clamp to `≤ 0`), while a body moving leftward away from the wall
(`velocity.x = -3`) is zeroed.  The left check matches the claim: a hit
clamps `velocity.x` up to `≥ 0`, and a miss clears the flag. -/
theorem check_wall_right_bug :
    check_wall_right_state (fun _ _ _ => some (GFloat.fin (1 / 2)))
        ⟨GFloat.fin 0, GFloat.fin 0⟩ ⟨GFloat.fin 0, GFloat.fin 0⟩ (GFloat.fin 1)
        (GFloat.fin 5) = (true, GFloat.fin 5) ∧
    check_wall_right_state (fun _ _ _ => some (GFloat.fin (1 / 2)))
        ⟨GFloat.fin 0, GFloat.fin 0⟩ ⟨GFloat.fin 0, GFloat.fin 0⟩ (GFloat.fin 1)
        (GFloat.fin (-3)) = (true, GFloat.fin 0) ∧
    ¬ (GFloat.lt (GFloat.fin 5) (GFloat.fin 0) = true ∨ GFloat.fin 5 = GFloat.fin 0) ∧
    check_wall_left_state (fun _ _ _ => some (GFloat.fin (1 / 2)))
        ⟨GFloat.fin 0, GFloat.fin 0⟩ ⟨GFloat.fin 0, GFloat.fin 0⟩ (GFloat.fin 1)
        (GFloat.fin (-3)) = (true, GFloat.fin 0) ∧
    check_wall_left_state (fun _ _ _ => none)
        ⟨GFloat.fin 0, GFloat.fin 0⟩ ⟨GFloat.fin 0, GFloat.fin 0⟩ (GFloat.fin 1)
        (GFloat.fin (-3)) = (false, GFloat.fin (-3)) ∧
    check_wall_right_state (fun _ _ _ => none)
        ⟨GFloat.fin 0, GFloat.fin 0⟩ ⟨GFloat.fin 0, GFloat.fin 0⟩ (GFloat.fin 1)
        (GFloat.fin 5) = (false, GFloat.fin 5) := by
  decide

/-! ### Gravity claims -/

/-- C10: a single gravity step leaves `velocity.y` unchanged when gravity
is disabled, or `velocity.y ≤ -max_fall_speed`, or a grounded flag is
present and true; otherwise it subtracts exactly `gravity * dt`.
Consequently the speed can overshoot `-max_fall_speed` by at most one
frame's increment, and once at or below the cap it is not decreased. -/
theorem apply_gravity_spec (dt : ℚ) (g : EntityGravity) (vy : ℚ)
    (grounded : Option Bool) :
    (apply_gravity dt g vy grounded =
      if g.enabled = true ∧ -g.max_fall_speed < vy ∧ grounded ≠ some true then
        vy - g.gravity * dt
      else vy) ∧
    (0 ≤ g.gravity * dt → -g.max_fall_speed ≤ vy →
      -g.max_fall_speed - g.gravity * dt ≤ apply_gravity dt g vy grounded) ∧
    (vy ≤ -g.max_fall_speed → apply_gravity dt g vy grounded = vy) := by
  have hmain : apply_gravity dt g vy grounded =
      if g.enabled = true ∧ -g.max_fall_speed < vy ∧ grounded ≠ some true then
        vy - g.gravity * dt
      else vy := by
    unfold apply_gravity
    rcases grounded with _ | b
    · by_cases he : g.enabled = true <;> by_cases hv : -g.max_fall_speed < vy <;>
        simp [he, hv]
    · cases b <;> by_cases he : g.enabled = true <;>
        by_cases hv : -g.max_fall_speed < vy <;> simp [he, hv]
  refine ⟨hmain, ?_, ?_⟩
  · intro h1 h2
    rw [hmain]
    split_ifs with h
    · linarith
    · linarith
  · intro h
    rw [hmain, if_neg]
    rintro ⟨_, hv, _⟩
    linarith

/-- Witness for C10 on a falling, airborne body. -/
theorem apply_gravity_spec_witness :
    (0 : ℚ) ≤ 10 * (1 / 60) ∧ -(100 : ℚ) ≤ 0 ∧
    apply_gravity (1 / 60) ⟨10, 100, true⟩ 0 (some false) =
      (if true = true ∧ -(100 : ℚ) < 0 ∧ (some false : Option Bool) ≠ some true then
        (0 : ℚ) - 10 * (1 / 60)
      else 0) ∧
    -(100 : ℚ) - 10 * (1 / 60) ≤ apply_gravity (1 / 60) ⟨10, 100, true⟩ 0 (some false) :=
  ⟨by norm_num, by norm_num,
    (apply_gravity_spec (1 / 60) ⟨10, 100, true⟩ 0 (some false)).1,
    (apply_gravity_spec (1 / 60) ⟨10, 100, true⟩ 0 (some false)).2.1 (by norm_num)
      (by norm_num)⟩

/-! ### Gravity-immunity claims -/

/-- C8 counterexample: on a tick where the immunity timer has not finished
(elapsed 1/60 of a 0.3 s duration after ticking) but the jump input is not
held, `toggle_gravity` enables gravity, and the gravity step then decreases
`velocity.y` by `gravity * dt` — gravity application is not suppressed even
though the timer is unfinished. -/
theorem toggle_gravity_counterexample :
    (toggle_gravity false (1 / 60) ⟨0, 3 / 10, false⟩).1.finished = false ∧
    (toggle_gravity false (1 / 60) ⟨0, 3 / 10, false⟩).2 = true ∧
    apply_gravity (1 / 60) ⟨10, 100, true⟩ 0 (some false) = -(1 / 6) ∧
    (-(1 / 6) : ℚ) < 0 := by
  refine ⟨?_, ?_, ?_, by norm_num⟩
  · norm_num [toggle_gravity, TimerM.tick]
  · norm_num [toggle_gravity, TimerM.tick]
  · norm_num [apply_gravity]

/-- C8 amended: the immunity timer is ticked every frame, and gravity is
suppressed exactly on ticks where the ticked timer is unfinished AND the
jump input is held; once the timer finishes (or the jump input is
released) gravity is enabled again, and a body whose gravity is disabled
has `velocity.y` left unchanged by the gravity step. -/
theorem toggle_gravity_amended (pressedJump : Bool) (dt : ℚ) (immunity : TimerM)
    (dt2 grav maxFall vy : ℚ) (grounded : Option Bool) :
    ((toggle_gravity pressedJump dt immunity).1 = immunity.tick dt) ∧
    ((toggle_gravity pressedJump dt immunity).2 =
      ((immunity.tick dt).finished || !pressedJump)) ∧
    ((immunity.tick dt).finished = false → pressedJump = true →
      (toggle_gravity pressedJump dt immunity).2 = false) ∧
    ((immunity.tick dt).finished = true →
      (toggle_gravity pressedJump dt immunity).2 = true) ∧
    (apply_gravity dt2 ⟨grav, maxFall, false⟩ vy grounded = vy) := by
  refine ⟨rfl, rfl, ?_, ?_, ?_⟩
  · intro h1 h2
    simp [toggle_gravity, h1, h2]
  · intro h1
    simp [toggle_gravity, h1]
  · simp [apply_gravity]

/-- Witness for C8 amended: held jump with an unfinished timer suppresses
gravity; a disabled-gravity body keeps its velocity. -/
theorem toggle_gravity_amended_witness :
    ((⟨0, 3 / 10, false⟩ : TimerM).tick (1 / 60)).finished = false ∧
    (toggle_gravity true (1 / 60) ⟨0, 3 / 10, false⟩).2 = false ∧
    apply_gravity 1 ⟨5, 20, false⟩ 7 none = 7 :=
  ⟨by norm_num [TimerM.tick],
    (toggle_gravity_amended true (1 / 60) ⟨0, 3 / 10, false⟩ 1 5 20 7 none).2.2.1
      (by norm_num [TimerM.tick]) rfl,
    (toggle_gravity_amended true (1 / 60) ⟨0, 3 / 10, false⟩ 1 5 20 7 none).2.2.2.2⟩

/-! ### Jump permission claims -/

/-- C5: on a tick where the jump input is pressed, the jump impulse is
added to `velocity.y` exactly when the grounded flag is true or the
time-since-grounded stopwatch is below the coyote threshold and the (just
ticked) jump-cooldown timer has finished; on a successful jump the
gravity-immunity timer and the cooldown timer are both reset, otherwise
both are left alone (the cooldown merely ticked). -/
theorem apply_controls_jump_spec (pressedLeft pressedRight pressedJump : Bool)
    (dt : ℚ) (vel : ℚ × ℚ) (grounded : Bool) (immunity : TimerM) (sw coyote : ℚ)
    (jumpForce walkSpeed walkAccel groundDecel : ℚ) (cooldown : TimerM)
    (hj : pressedJump = true) :
    ((apply_controls pressedLeft pressedRight pressedJump dt vel grounded immunity
        sw coyote jumpForce walkSpeed walkAccel groundDecel cooldown).1.2 =
      if (grounded || (decide (sw < coyote) && (cooldown.tick dt).finished)) = true then
        vel.2 + jumpForce
      else vel.2) ∧
    ((grounded || (decide (sw < coyote) && (cooldown.tick dt).finished)) = true →
      (apply_controls pressedLeft pressedRight pressedJump dt vel grounded immunity
          sw coyote jumpForce walkSpeed walkAccel groundDecel cooldown).2 =
        (immunity.reset, (cooldown.tick dt).reset, true)) ∧
    ((grounded || (decide (sw < coyote) && (cooldown.tick dt).finished)) = false →
      (apply_controls pressedLeft pressedRight pressedJump dt vel grounded immunity
          sw coyote jumpForce walkSpeed walkAccel groundDecel cooldown).2 =
        (immunity, cooldown.tick dt, false)) := by
  subst hj
  by_cases hc : (grounded || (decide (sw < coyote) && (cooldown.tick dt).finished)) = true
  · simp [apply_controls, hc]
  · have hc' : (grounded || (decide (sw < coyote) && (cooldown.tick dt).finished)) = false :=
      Bool.eq_false_iff.mpr hc
    simp [apply_controls, hc']

/-- Witness for C5: airborne body inside the coyote window with a finished
cooldown; the held jump adds the impulse and resets both timers. -/
theorem apply_controls_jump_spec_witness :
    (true = true) ∧
    ((false || (decide ((1 / 10 : ℚ) < 1 / 2) &&
        ((⟨1 / 2, 1 / 2, true⟩ : TimerM).tick (1 / 60)).finished)) = true) ∧
    (apply_controls false false true (1 / 60) ((0 : ℚ), (0 : ℚ)) false
        ⟨1 / 10, 3 / 10, false⟩ (1 / 10) (1 / 2) 5 3 2 4 ⟨1 / 2, 1 / 2, true⟩).1.2 =
      (if (false || (decide ((1 / 10 : ℚ) < 1 / 2) &&
          ((⟨1 / 2, 1 / 2, true⟩ : TimerM).tick (1 / 60)).finished)) = true then
        ((0 : ℚ), (0 : ℚ)).2 + 5
      else ((0 : ℚ), (0 : ℚ)).2) ∧
    (apply_controls false false true (1 / 60) ((0 : ℚ), (0 : ℚ)) false
        ⟨1 / 10, 3 / 10, false⟩ (1 / 10) (1 / 2) 5 3 2 4 ⟨1 / 2, 1 / 2, true⟩).2 =
      (TimerM.reset ⟨1 / 10, 3 / 10, false⟩,
        TimerM.reset ((⟨1 / 2, 1 / 2, true⟩ : TimerM).tick (1 / 60)), true) :=
  ⟨rfl, by norm_num [TimerM.tick],
    (apply_controls_jump_spec false false true (1 / 60) ((0 : ℚ), (0 : ℚ)) false
      ⟨1 / 10, 3 / 10, false⟩ (1 / 10) (1 / 2) 5 3 2 4 ⟨1 / 2, 1 / 2, true⟩ rfl).1,
    (apply_controls_jump_spec false false true (1 / 60) ((0 : ℚ), (0 : ℚ)) false
      ⟨1 / 10, 3 / 10, false⟩ (1 / 10) (1 / 2) 5 3 2 4 ⟨1 / 2, 1 / 2, true⟩ rfl).2.1
      (by norm_num [TimerM.tick])⟩

/-! ### Movement integrator claims -/

/-- Subtraction on finite floats. -/
theorem GFloat.sub_fin (a b : ℚ) :
    GFloat.sub (GFloat.fin a) (GFloat.fin b) = GFloat.fin (a - b) := by
  simp [GFloat.sub, GFloat.neg, GFloat.add, sub_eq_add_neg]

/-- Multiplication by `nan` absorbs. -/
theorem GFloat.mul_nan_right (x : GFloat) : GFloat.mul x GFloat.nan = GFloat.nan := by
  cases x <;> rfl

/-- Addition of `nan` absorbs. -/
theorem GFloat.add_nan_right (x : GFloat) : GFloat.add x GFloat.nan = GFloat.nan := by
  cases x <;> rfl

/-- `nan` on the left of a multiplication absorbs. -/
theorem GFloat.mul_nan_left (x : GFloat) : GFloat.mul GFloat.nan x = GFloat.nan := by
  cases x <;> rfl

/-- The reciprocal of `nan` is `nan`. -/
theorem GFloat.recip_nan : GFloat.recip GFloat.nan = GFloat.nan := rfl

/-- `apply_velocity` factored through `apply_velocity_clamp`: the two
definitions share the velocity-mutation prefix verbatim. -/
theorem apply_velocity_eq (cast : CastOracle) (len dt : GFloat) (pos coll vel : GVec2)
    (wallL wallR ceil : Option Bool) :
    apply_velocity cast len dt pos coll vel wallL wallR ceil =
      (let v := apply_velocity_clamp vel wallL wallR ceil
       if GFloat.beq len (GFloat.fin 0) || GFloat.beq len GFloat.inf then (v, pos)
       else
         let target := GFloat.mul len dt
         let unit : GVec2 := ⟨GFloat.mul v.x (GFloat.recip len),
           GFloat.mul v.y (GFloat.recip len)⟩
         let hit := shape_cast cast ⟨GFloat.add pos.x coll.x, GFloat.add pos.y coll.y⟩
           unit target
         let actual := match hit with
           | some d => GFloat.sub d (GFloat.fin (1 / 10))
           | none => target
         (v, ⟨GFloat.add pos.x (GFloat.mul unit.x actual),
              GFloat.add pos.y (GFloat.mul unit.y actual)⟩)) := rfl

/-- The velocity component returned by `apply_velocity` is exactly the
clamp-stage output, whatever the guard decides. -/
theorem apply_velocity_fst (cast : CastOracle) (len dt : GFloat) (pos coll vel : GVec2)
    (wallL wallR ceil : Option Bool) :
    (apply_velocity cast len dt pos coll vel wallL wallR ceil).1 =
      apply_velocity_clamp vel wallL wallR ceil := by
  rw [apply_velocity_eq]
  dsimp only
  split <;> rfl

/-- C9 counterexample: `apply_velocity` does modify the velocity vector.
A body with velocity `(1/2, 0)` (no wall or ceiling flags attached, length
`0` after the dead-zone snap) leaves `apply_velocity` with velocity
`(0, 0) ≠ (1/2, 0)`: the dead-zone snap inside the integrator mutated
`velocity.x`. -/
theorem apply_velocity_mutates_velocity :
    (apply_velocity (fun _ _ _ => none) (GFloat.fin 0) (GFloat.fin 1)
        ⟨GFloat.fin 0, GFloat.fin 0⟩ ⟨GFloat.fin 0, GFloat.fin 0⟩
        ⟨GFloat.fin (1 / 2), GFloat.fin 0⟩ none none none).1 =
      ⟨GFloat.fin 0, GFloat.fin 0⟩ ∧
    (⟨GFloat.fin 0, GFloat.fin 0⟩ : GVec2) ≠ ⟨GFloat.fin (1 / 2), GFloat.fin 0⟩ ∧
    isLength ⟨GFloat.fin 0, GFloat.fin 0⟩ (GFloat.fin 0) = true := by
  refine ⟨by norm_num [apply_velocity, GFloat.lt, GFloat.beq], ?_, by norm_num [isLength]⟩
  simp only [ne_eq, GVec2.mk.injEq, GFloat.fin.injEq, not_and]
  intro h
  norm_num at h

/-- C9 amended: the movement portion of `apply_velocity` (the cast and the
transform update) leaves the velocity unmodified — the returned velocity is
exactly the result of the dead-zone/wall/ceiling clamp prefix (lines
316-336) and does not depend on the spatial query; but that prefix itself
does mutate the velocity (see the counterexample). -/
theorem apply_velocity_velocity_spec (cast cast2 : CastOracle) (len dt : GFloat)
    (pos coll vel : GVec2) (wallL wallR ceil : Option Bool) :
    (apply_velocity cast len dt pos coll vel wallL wallR ceil).1 =
      apply_velocity_clamp vel wallL wallR ceil ∧
    (apply_velocity cast len dt pos coll vel wallL wallR ceil).1 =
      (apply_velocity cast2 len dt pos coll vel wallL wallR ceil).1 :=
  ⟨apply_velocity_fst cast len dt pos coll vel wallL wallR ceil,
    (apply_velocity_fst cast len dt pos coll vel wallL wallR ceil).trans
      (apply_velocity_fst cast2 len dt pos coll vel wallL wallR ceil).symm⟩

/-- C7 counterexample: a `nan` velocity magnitude does not halt movement.
With velocity `(nan, 0)` — whose glam length is `nan`, as certified by
`isLength` — the guard `length == 0.0 || length == INFINITY` is false
(IEEE comparisons with `nan` are false), the integrator proceeds, and the
transform is overwritten with `nan`: it ends the tick changed, not
unchanged. -/
theorem apply_velocity_nan_counterexample :
    isLength ⟨GFloat.nan, GFloat.fin 0⟩ GFloat.nan = true ∧
    (GFloat.beq GFloat.nan (GFloat.fin 0) || GFloat.beq GFloat.nan GFloat.inf) = false ∧
    (apply_velocity (fun _ _ _ => none) GFloat.nan (GFloat.fin 1)
        ⟨GFloat.fin 0, GFloat.fin 0⟩ ⟨GFloat.fin 0, GFloat.fin 0⟩
        ⟨GFloat.nan, GFloat.fin 0⟩ none none none).2 =
      ⟨GFloat.nan, GFloat.nan⟩ ∧
    (⟨GFloat.nan, GFloat.nan⟩ : GVec2) ≠ ⟨GFloat.fin 0, GFloat.fin 0⟩ := by
  refine ⟨rfl, rfl, ?_, by simp⟩
  norm_num [apply_velocity, GFloat.lt, GFloat.beq, GFloat.recip, GFloat.mul,
    shape_cast, dir2New, GFloat.isFinite, GFloat.add]

/-- C7 amended: the integrator's guard halts movement exactly for a
magnitude equal to `0.0` or `+INFINITY` (the transform is returned
unchanged); a `nan` magnitude passes the guard — both equality comparisons
are false on `nan` — and the movement step overwrites both transform
components with `nan`. -/
theorem apply_velocity_nonfinite_spec (cast : CastOracle) (len dt : GFloat)
    (pos coll vel : GVec2) (wallL wallR ceil : Option Bool) :
    (len = GFloat.fin 0 ∨ len = GFloat.inf →
      (apply_velocity cast len dt pos coll vel wallL wallR ceil).2 = pos) ∧
    (len = GFloat.nan →
      (apply_velocity cast len dt pos coll vel wallL wallR ceil).2 =
        ⟨GFloat.nan, GFloat.nan⟩) := by
  constructor
  · intro hg
    have hguard : (GFloat.beq len (GFloat.fin 0) || GFloat.beq len GFloat.inf) = true := by
      rcases hg with rfl | rfl <;> simp [GFloat.beq]
    rw [apply_velocity_eq]
    dsimp only
    rw [if_pos hguard]
  · intro hlen
    subst hlen
    rw [apply_velocity_eq]
    dsimp only
    rw [if_neg (by simp [GFloat.beq])]
    simp [GFloat.recip_nan, GFloat.mul_nan_right, GFloat.mul_nan_left, shape_cast,
      dir2New, GFloat.isFinite, GFloat.add_nan_right]

/-- Witness for C7 amended: a zero magnitude keeps the transform, a `nan`
magnitude corrupts it. -/
theorem apply_velocity_nonfinite_spec_witness :
    (GFloat.fin 0 = GFloat.fin 0 ∨ (GFloat.fin 0 : GFloat) = GFloat.inf) ∧
    (apply_velocity (fun _ _ _ => some (GFloat.fin 1)) (GFloat.fin 0) (GFloat.fin 1)
        ⟨GFloat.fin 2, GFloat.fin 3⟩ ⟨GFloat.fin 0, GFloat.fin 0⟩
        ⟨GFloat.fin 0, GFloat.fin 0⟩ none none none).2 =
      ⟨GFloat.fin 2, GFloat.fin 3⟩ ∧
    (GFloat.nan = GFloat.nan) ∧
    (apply_velocity (fun _ _ _ => none) GFloat.nan (GFloat.fin 1)
        ⟨GFloat.fin 2, GFloat.fin 3⟩ ⟨GFloat.fin 0, GFloat.fin 0⟩
        ⟨GFloat.fin 5, GFloat.fin 0⟩ none none none).2 =
      ⟨GFloat.nan, GFloat.nan⟩ :=
  ⟨Or.inl rfl,
    (apply_velocity_nonfinite_spec (fun _ _ _ => some (GFloat.fin 1)) (GFloat.fin 0)
      (GFloat.fin 1) ⟨GFloat.fin 2, GFloat.fin 3⟩ ⟨GFloat.fin 0, GFloat.fin 0⟩
      ⟨GFloat.fin 0, GFloat.fin 0⟩ none none none).1 (Or.inl rfl),
    rfl,
    (apply_velocity_nonfinite_spec (fun _ _ _ => none) GFloat.nan (GFloat.fin 1)
      ⟨GFloat.fin 2, GFloat.fin 3⟩ ⟨GFloat.fin 0, GFloat.fin 0⟩
      ⟨GFloat.fin 5, GFloat.fin 0⟩ none none none).2 rfl⟩

/-- Addition on finite floats. -/
theorem GFloat.add_fin (a b : ℚ) :
    GFloat.add (GFloat.fin a) (GFloat.fin b) = GFloat.fin (a + b) := rfl

/-- Multiplication on finite floats. -/
theorem GFloat.mul_fin (a b : ℚ) :
    GFloat.mul (GFloat.fin a) (GFloat.fin b) = GFloat.fin (a * b) := rfl

/-- C3 amended: when the clamped velocity is finite with positive exact
magnitude `L`, the integrator casts from the collider anchor along the unit
direction `(vx/L, vy/L)` for `targetDistance = L * t`.  On a hit at
distance `d` the body is moved by exactly `d - skin` (skin = 0.1) along the
cast direction — with no clamping to `≥ 0`, so for `d < skin` the body
moves backward — and the signed moved distance `d - 1/10` never exceeds
`d`; with no hit it moves the full `targetDistance`, i.e. by `v * t`. -/
theorem apply_velocity_swept_spec (cast : CastOracle) (L t px py cx cy vx vy : ℚ)
    (vel : GVec2) (wallL wallR ceil : Option Bool)
    (hclamp : apply_velocity_clamp vel wallL wallR ceil = ⟨GFloat.fin vx, GFloat.fin vy⟩)
    (hL : isLength ⟨GFloat.fin vx, GFloat.fin vy⟩ (GFloat.fin L) = true)
    (hLpos : 0 < L) :
    (∀ d : ℚ,
      cast ⟨GFloat.fin (px + cx), GFloat.fin (py + cy)⟩
          ⟨GFloat.fin (vx / L), GFloat.fin (vy / L)⟩ (GFloat.fin (L * t)) =
        some (GFloat.fin d) →
      (apply_velocity cast (GFloat.fin L) (GFloat.fin t) ⟨GFloat.fin px, GFloat.fin py⟩
          ⟨GFloat.fin cx, GFloat.fin cy⟩ vel wallL wallR ceil).2 =
        ⟨GFloat.fin (px + vx / L * (d - 1 / 10)),
         GFloat.fin (py + vy / L * (d - 1 / 10))⟩ ∧
      d - 1 / 10 ≤ d) ∧
    (cast ⟨GFloat.fin (px + cx), GFloat.fin (py + cy)⟩
        ⟨GFloat.fin (vx / L), GFloat.fin (vy / L)⟩ (GFloat.fin (L * t)) = none →
      (apply_velocity cast (GFloat.fin L) (GFloat.fin t) ⟨GFloat.fin px, GFloat.fin py⟩
          ⟨GFloat.fin cx, GFloat.fin cy⟩ vel wallL wallR ceil).2 =
        ⟨GFloat.fin (px + vx / L * (L * t)), GFloat.fin (py + vy / L * (L * t))⟩ ∧
      vx / L * (L * t) = vx * t) := by
  have hq : 0 ≤ L ∧ L * L = vx * vx + vy * vy := by
    simpa [isLength] using hL
  have hg : (GFloat.beq (GFloat.fin L) (GFloat.fin 0) ||
      GFloat.beq (GFloat.fin L) GFloat.inf) = false := by
    simp [GFloat.beq, hLpos.ne']
  have hrecip : GFloat.recip (GFloat.fin L) = GFloat.fin L⁻¹ := by
    simp [GFloat.recip, hLpos.ne']
  have hux : GFloat.mul (GFloat.fin vx) (GFloat.recip (GFloat.fin L)) =
      GFloat.fin (vx / L) := by
    rw [hrecip, GFloat.mul_fin, div_eq_mul_inv]
  have huy : GFloat.mul (GFloat.fin vy) (GFloat.recip (GFloat.fin L)) =
      GFloat.fin (vy / L) := by
    rw [hrecip, GFloat.mul_fin, div_eq_mul_inv]
  have hne : ¬(vx / L = 0 ∧ vy / L = 0) := by
    rintro ⟨h1, h2⟩
    rw [div_eq_zero_iff] at h1 h2
    rcases h1 with h1 | h1
    · rcases h2 with h2 | h2
      · nlinarith [hq.2]
      · exact absurd h2 hLpos.ne'
    · exact absurd h1 hLpos.ne'
  have hdir : dir2New ⟨GFloat.fin (vx / L), GFloat.fin (vy / L)⟩ = true := by
    simp only [dir2New, GFloat.isFinite, GFloat.beq, Bool.true_and, Bool.and_self,
      Bool.not_eq_true', Bool.and_eq_false_imp, decide_eq_true_eq, decide_eq_false_iff_not]
    intro h1
    exact fun h2 => hne ⟨h1, h2⟩
  have hmain : (apply_velocity cast (GFloat.fin L) (GFloat.fin t)
      ⟨GFloat.fin px, GFloat.fin py⟩ ⟨GFloat.fin cx, GFloat.fin cy⟩ vel
      wallL wallR ceil).2 =
      (⟨GFloat.add (GFloat.fin px) (GFloat.mul (GFloat.fin (vx / L))
          (match cast ⟨GFloat.fin (px + cx), GFloat.fin (py + cy)⟩
              ⟨GFloat.fin (vx / L), GFloat.fin (vy / L)⟩ (GFloat.fin (L * t)) with
            | some dd => GFloat.sub dd (GFloat.fin (1 / 10))
            | none => GFloat.fin (L * t))),
        GFloat.add (GFloat.fin py) (GFloat.mul (GFloat.fin (vy / L))
          (match cast ⟨GFloat.fin (px + cx), GFloat.fin (py + cy)⟩
              ⟨GFloat.fin (vx / L), GFloat.fin (vy / L)⟩ (GFloat.fin (L * t)) with
            | some dd => GFloat.sub dd (GFloat.fin (1 / 10))
            | none => GFloat.fin (L * t)))⟩ : GVec2) := by
    rw [apply_velocity_eq, hclamp]
    dsimp only
    rw [if_neg (by simp [hg])]
    rw [hux, huy, GFloat.add_fin, GFloat.add_fin, GFloat.mul_fin]
    rw [shape_cast, if_pos hdir]
  constructor
  · intro d hd
    rw [hmain, hd]
    refine ⟨?_, by linarith⟩
    dsimp only
    rw [GFloat.sub_fin, GFloat.mul_fin, GFloat.mul_fin, GFloat.add_fin, GFloat.add_fin]
  · intro hd
    rw [hmain, hd]
    refine ⟨?_, ?_⟩
    · dsimp only
      rw [GFloat.mul_fin, GFloat.mul_fin, GFloat.add_fin, GFloat.add_fin]
    · field_simp
      ring

/-- C3 counterexample: the skin subtraction is not clamped at zero.  With
clamped velocity `(3, 4)` (length 5), `dt = 1` and a cast that reports an
obstruction already at distance `0`, the body is moved by `-0.1` along the
cast direction — it ends at `(-3/50, -2/25)` — whereas
`max(d - skin, 0) = 0` would require the transform to stay at the
origin. -/
theorem apply_velocity_swept_counterexample :
    isLength ⟨GFloat.fin 3, GFloat.fin 4⟩ (GFloat.fin 5) = true ∧
    apply_velocity_clamp ⟨GFloat.fin 3, GFloat.fin 4⟩ none none none =
      ⟨GFloat.fin 3, GFloat.fin 4⟩ ∧
    (apply_velocity (fun _ _ _ => some (GFloat.fin 0)) (GFloat.fin 5) (GFloat.fin 1)
        ⟨GFloat.fin 0, GFloat.fin 0⟩ ⟨GFloat.fin 0, GFloat.fin 0⟩
        ⟨GFloat.fin 3, GFloat.fin 4⟩ none none none).2 =
      ⟨GFloat.fin (-(3 / 50)), GFloat.fin (-(2 / 25))⟩ ∧
    max ((0 : ℚ) - 1 / 10) 0 = 0 ∧
    (⟨GFloat.fin (-(3 / 50)), GFloat.fin (-(2 / 25))⟩ : GVec2) ≠
      ⟨GFloat.fin 0, GFloat.fin 0⟩ := by
  refine ⟨by norm_num [isLength], by norm_num [apply_velocity_clamp, GFloat.lt], ?_,
    by norm_num, ?_⟩
  · norm_num [apply_velocity, GFloat.lt, GFloat.beq, GFloat.recip, GFloat.mul,
      GFloat.add, GFloat.sub, GFloat.neg, shape_cast, dir2New, GFloat.isFinite]
  · simp only [ne_eq, GVec2.mk.injEq, GFloat.fin.injEq, not_and]
    intro h
    norm_num at h

/-- Witness for C3 amended: a hit at distance 2 on a length-5 velocity
moves the body by `2 - 0.1` along the unit direction. -/
theorem apply_velocity_swept_spec_witness :
    apply_velocity_clamp ⟨GFloat.fin 3, GFloat.fin 4⟩ none none none =
      ⟨GFloat.fin 3, GFloat.fin 4⟩ ∧
    isLength ⟨GFloat.fin 3, GFloat.fin 4⟩ (GFloat.fin 5) = true ∧
    (0 : ℚ) < 5 ∧
    ((apply_velocity (fun _ _ _ => some (GFloat.fin 2)) (GFloat.fin 5) (GFloat.fin 1)
        ⟨GFloat.fin 0, GFloat.fin 0⟩ ⟨GFloat.fin 0, GFloat.fin 0⟩
        ⟨GFloat.fin 3, GFloat.fin 4⟩ none none none).2 =
      ⟨GFloat.fin ((0 : ℚ) + 3 / 5 * (2 - 1 / 10)),
       GFloat.fin ((0 : ℚ) + 4 / 5 * (2 - 1 / 10))⟩ ∧
      (2 : ℚ) - 1 / 10 ≤ 2) := by
  have hclamp : apply_velocity_clamp ⟨GFloat.fin 3, GFloat.fin 4⟩ none none none =
      ⟨GFloat.fin 3, GFloat.fin 4⟩ := by
    norm_num [apply_velocity_clamp, GFloat.lt]
  have hL : isLength ⟨GFloat.fin 3, GFloat.fin 4⟩ (GFloat.fin 5) = true := by
    norm_num [isLength]
  exact ⟨hclamp, hL, by norm_num,
    (apply_velocity_swept_spec (fun _ _ _ => some (GFloat.fin 2)) 5 1 0 0 0 0 3 4
      ⟨GFloat.fin 3, GFloat.fin 4⟩ none none none hclamp hL (by norm_num)).1 2 rfl⟩
